import Mathlib

/-!
Verification of the EEG epoch-quality staged-rejection pipeline described by
the repository spec against a shallow embedding of the notebook code
(src/preprocessing_notebook.ipynb).  Operations whose implementation lives in
the external meeg_tools / mne packages (not under src/) are modelled from the
spec text, as marked in their doc comments.
-/

namespace EEGPipeline

/-! ### Stage 1: segmentation -/

/-- Modelled from the spec: `create_epochs` (imported from
meeg_tools.utils.epochs, not under src/).  With no event markers, epochs of
`d` samples tile the signal from time zero; the trailing partial segment is
discarded, so there are `sig.length / d` (floor) epochs and epoch `i`
occupies samples `[i*d, i*d + d)`. -/
def segmentSignal (sig : List ℚ) (d : Nat) : List (List ℚ) :=
  (List.range (sig.length / d)).map (fun i => (sig.drop (i * d)).take d)

theorem segment_flatten (sig : List ℚ) (d n : Nat) :
    ((List.range n).map (fun i => (sig.drop (i * d)).take d)).flatten
      = sig.take (n * d) := by
  induction n with
  | zero => simp
  | succ n ih =>
      rw [List.range_succ, List.map_append, List.flatten_append, ih]
      simp [Nat.succ_mul, List.take_add]

/-- C1: for every epoch duration `d > 0` and signal of length `L` with no
event markers, segmentation produces exactly `L / d` (floor) epochs; epoch
`i` is exactly the slice of `d` samples starting at offset `i * d` (so the
epochs are pairwise non-overlapping and tile the signal from time zero with
no gap); their concatenation is exactly the retained span
`sig.take (L / d * d)`, and the discarded trailing segment is shorter than
one epoch. -/
theorem claim_C1_segmentation (sig : List ℚ) (d : Nat) (hd : 0 < d) :
    (segmentSignal sig d).length = sig.length / d ∧
    (∀ i, i < sig.length / d →
      (segmentSignal sig d).getD i [] = (sig.drop (i * d)).take d ∧
      ((segmentSignal sig d).getD i []).length = d) ∧
    (segmentSignal sig d).flatten = sig.take (sig.length / d * d) ∧
    sig.length - sig.length / d * d < d := by
  refine ⟨by simp [segmentSignal], ?_, ?_, ?_⟩
  · intro i hi
    have hlen : i < (segmentSignal sig d).length := by
      simpa [segmentSignal] using hi
    have hget : (segmentSignal sig d).getD i [] = (sig.drop (i * d)).take d := by
      rw [List.getD_eq_getElem _ _ hlen]
      simp [segmentSignal]
    refine ⟨hget, ?_⟩
    rw [hget]
    have hbound : (i + 1) * d ≤ sig.length := by
      calc (i + 1) * d ≤ sig.length / d * d :=
            Nat.mul_le_mul_right d hi
        _ ≤ sig.length := Nat.div_mul_le_self _ _
    rw [Nat.succ_mul] at hbound
    simp only [List.length_take, List.length_drop]
    omega
  · exact segment_flatten sig d _
  · have h1 : sig.length / d * d + sig.length % d = sig.length :=
      Nat.div_add_mod' sig.length d
    have h2 : sig.length % d < d := Nat.mod_lt _ hd
    omega

/-- Witness for C1 at a concrete signal of 5 samples and duration 2. -/
theorem claim_C1_segmentation_witness :
    (segmentSignal [1, 2, 3, 4, 5] 2).length = 2 ∧
    (segmentSignal [1, 2, 3, 4, 5] 2).flatten = [1, 2, 3, 4] := by
  have h := claim_C1_segmentation [1, 2, 3, 4, 5] 2 (by decide)
  exact ⟨h.1, h.2.2.1⟩

/-! ### Stage 2: preliminary rejection -/

/-- Population mean of a list of rationals. -/
def mean (xs : List ℚ) : ℚ := xs.sum / xs.length

/-- Population variance of a list of rationals. -/
def popVariance (xs : List ℚ) : ℚ := mean (xs.map (fun x => (x - mean xs) ^ 2))

/-- Maximum of a list (0 for the empty list). -/
def listMax : List ℚ → ℚ
  | [] => 0
  | x :: xs => xs.foldl max x

/-- Minimum of a list (0 for the empty list). -/
def listMin : List ℚ → ℚ
  | [] => 0
  | x :: xs => xs.foldl min x

/-- Peak-to-peak amplitude range of a list of samples. -/
def ptpRange (xs : List ℚ) : ℚ := listMax xs - listMin xs

/-- Variance of one epoch, pooled across all channels.  An epoch is a list of
channels, each a list of samples. -/
def epochVariance (e : List (List ℚ)) : ℚ := popVariance e.flatten

/-- Peak-to-peak amplitude range of one epoch, across all channels. -/
def epochPtp (e : List (List ℚ)) : ℚ := ptpRange e.flatten

/-- The z-score magnitude of `x` within population `pop` exceeds `t`, encoded
without square roots: `|x - mean| / sd > t` iff `(x - mean)^2 > t^2 * var`
(for `t ≥ 0`), which is decidable over ℚ. -/
def zThresholdExceeded (pop : List ℚ) (x t : ℚ) : Bool :=
  decide (t ^ 2 * popVariance pop < (x - mean pop) ^ 2)

/-- Rejection flag of one epoch in Stage 2: either the variance z-score or
the peak-to-peak z-score exceeds the threshold. -/
def prelimFlag (t : ℚ) (epochs : List (List (List ℚ)))
    (e : List (List ℚ)) : Bool :=
  zThresholdExceeded (epochs.map epochVariance) (epochVariance e) t
    || zThresholdExceeded (epochs.map epochPtp) (epochPtp e) t

/-- Modelled from the spec: `prepare_epochs_for_ica` (imported from
meeg_tools.preprocessing, not under src/).  For each epoch, compute the
variance and the peak-to-peak amplitude range across all channels, convert
each statistic to a z-score across the epoch population, and mark the epoch
rejected when either z-score magnitude exceeds the threshold (default 3.0).
Rejected epochs are marked, not deleted, forming the audit trail. -/
def prelimMark (t : ℚ) (epochs : List (List (List ℚ))) :
    List (List (List ℚ) × Bool) :=
  epochs.map (fun e => (e, prelimFlag t epochs e))

/-- Epochs handed to Stage 3: those not marked rejected by Stage 2. -/
def prelimSurvivors (t : ℚ) (epochs : List (List (List ℚ))) :
    List (List (List ℚ)) :=
  epochs.filter (fun e => !prelimFlag t epochs e)

theorem popVariance_nonneg (xs : List ℚ) : 0 ≤ popVariance xs := by
  unfold popVariance mean
  apply div_nonneg
  · apply List.sum_nonneg
    intro x hx
    simp only [List.mem_map] at hx
    obtain ⟨y, _, rfl⟩ := hx
    positivity
  · positivity

theorem zThresholdExceeded_iff (pop : List ℚ) (x t : ℚ) (ht : 0 ≤ t) :
    zThresholdExceeded pop x t = true ↔
      (t : ℝ) * Real.sqrt ((popVariance pop : ℚ) : ℝ)
        < |((x : ℚ) : ℝ) - ((mean pop : ℚ) : ℝ)| := by
  rw [zThresholdExceeded, decide_eq_true_iff]
  have hV : (0 : ℝ) ≤ ((popVariance pop : ℚ) : ℝ) := by
    exact_mod_cast popVariance_nonneg pop
  have ht' : (0 : ℝ) ≤ ((t : ℚ) : ℝ) := by exact_mod_cast ht
  constructor
  · intro h
    have hcast : ((t : ℚ) : ℝ) ^ 2 * ((popVariance pop : ℚ) : ℝ)
        < (((x : ℚ) : ℝ) - ((mean pop : ℚ) : ℝ)) ^ 2 := by
      exact_mod_cast h
    have hsq : (((t : ℚ) : ℝ) * Real.sqrt ((popVariance pop : ℚ) : ℝ)) ^ 2
        < |((x : ℚ) : ℝ) - ((mean pop : ℚ) : ℝ)| ^ 2 := by
      rw [mul_pow, Real.sq_sqrt hV, sq_abs]
      exact hcast
    exact lt_of_pow_lt_pow_left₀ 2 (abs_nonneg _) hsq
  · intro h
    have hsq := pow_lt_pow_left₀ h
      (mul_nonneg ht' (Real.sqrt_nonneg _)) (by norm_num : (2 : ℕ) ≠ 0)
    rw [mul_pow, Real.sq_sqrt hV, sq_abs] at hsq
    have : (t : ℚ) ^ 2 * popVariance pop < (x - mean pop) ^ 2 := by
      exact_mod_cast hsq
    exact this

/-- C2: Stage 2 retains every input epoch in the marked audit trail, hands to
Stage 3 exactly the epochs not marked rejected, and an epoch is marked
rejected exactly when the magnitude of the z-score of its variance or of its
peak-to-peak range (across the epoch population) exceeds the threshold
`t ≥ 0` (default 3.0). -/
theorem claim_C2_preliminary_rejection (t : ℚ) (ht : 0 ≤ t)
    (epochs : List (List (List ℚ))) :
    (prelimMark t epochs).map Prod.fst = epochs ∧
    prelimSurvivors t epochs
      = ((prelimMark t epochs).filter (fun p => !p.2)).map Prod.fst ∧
    ∀ i, i < epochs.length →
      (((prelimMark t epochs).getD i ([], false)).2 = true ↔
        ((t : ℝ) * Real.sqrt ((popVariance (epochs.map epochVariance) : ℚ) : ℝ)
            < |((epochVariance (epochs.getD i []) : ℚ) : ℝ)
                - ((mean (epochs.map epochVariance) : ℚ) : ℝ)| ∨
         (t : ℝ) * Real.sqrt ((popVariance (epochs.map epochPtp) : ℚ) : ℝ)
            < |((epochPtp (epochs.getD i []) : ℚ) : ℝ)
                - ((mean (epochs.map epochPtp) : ℚ) : ℝ)|)) := by
  refine ⟨?_, ?_, ?_⟩
  · simp [prelimMark, List.map_map, Function.comp_def]
  · rw [prelimSurvivors, prelimMark, List.filter_map, List.map_map]
    simp [Function.comp_def]
  · intro i hi
    have hlen : i < (prelimMark t epochs).length := by
      simpa [prelimMark] using hi
    rw [List.getD_eq_getElem _ _ hlen, List.getD_eq_getElem _ _ hi]
    simp only [prelimMark, List.getElem_map]
    rw [prelimFlag, Bool.or_eq_true,
      zThresholdExceeded_iff _ _ _ ht, zThresholdExceeded_iff _ _ _ ht]

/-- Witness for C2 at threshold 3 and a concrete two-epoch set. -/
theorem claim_C2_preliminary_rejection_witness :
    (prelimMark 3 [[[1, 2]], [[1, 5]]]).map Prod.fst = [[[1, 2]], [[1, 5]]] := by
  exact (claim_C2_preliminary_rejection 3 (by norm_num) [[[1, 2]], [[1, 5]]]).1

/-! ### Stage 4: adaptive threshold rejection (autoreject) -/

/-- Fraction of the channels of one epoch that the learned per-channel
thresholds classified bad.  `row` is the per-channel bad flags of the
epoch. -/
def badFraction (row : List Bool) : ℚ := (row.count true : ℚ) / row.length

/-- Default strictness threshold of the strict policy (15 percent). -/
def strictDefaultThreshold : ℚ := 15 / 100

/-- Strict-policy drop test: the bad-channel fraction exceeds `thr`. -/
def strictDrop (thr : ℚ) (row : List Bool) : Bool :=
  decide (thr < badFraction row)

/-- Drop from `es` every element whose companion flag in `bs` satisfies
`p`. -/
def dropFlagged {α β : Type} (p : β → Bool) : List α → List β → List α
  | [], _ => []
  | _ :: _, [] => []
  | e :: es, b :: bs =>
      if p b then dropFlagged p es bs else e :: dropFlagged p es bs

/-- Modelled from the spec: the strict policy of
`epochs_autoreject = epochs_faster.copy().drop(reject_log.report)`
(run_autoreject lives in meeg_tools, not under src/): drop any epoch whose
fraction of bad channels exceeds the configurable threshold. -/
def applyStrict (thr : ℚ) (epochs : List (List (List ℚ)))
    (labels : List (List Bool)) : List (List (List ℚ)) :=
  dropFlagged (strictDrop thr) epochs labels

/-- Modelled from the spec: the lenient policy of
`epochs_faster.copy().drop(reject_log.bad_epochs)`: drop only the epochs
globally marked bad. -/
def applyLenient (epochs : List (List (List ℚ)))
    (badEpochs : List Bool) : List (List (List ℚ)) :=
  dropFlagged (fun b => b) epochs badEpochs

theorem dropFlagged_eq_filter {α β : Type} (p : β → Bool) (es : List α)
    (bs : List β) :
    dropFlagged p es bs
      = ((es.zip bs).filter (fun q => ! p q.2)).map Prod.fst := by
  induction es generalizing bs with
  | nil => simp [dropFlagged]
  | cons e es ih =>
      cases bs with
      | nil => simp [dropFlagged]
      | cons b bs =>
          by_cases h : p b = true <;>
            simp [dropFlagged, h, ih, List.filter_cons]

theorem dropFlagged_length {α β : Type} (p : β → Bool) (es : List α)
    (bs : List β) :
    (dropFlagged p es bs).length + (es.zip bs).countP (fun q => p q.2)
      = min es.length bs.length := by
  induction es generalizing bs with
  | nil => simp [dropFlagged]
  | cons e es ih =>
      cases bs with
      | nil => simp [dropFlagged]
      | cons b bs =>
          have h2 := ih bs
          by_cases h : p b = true <;>
            simp [dropFlagged, h, List.countP_cons] <;> omega

/-- C3: under the strict policy an epoch is dropped if and only if the
fraction of its channels classified bad exceeds the threshold (default
15 / 100); the survivors are exactly the epochs whose flag row does not
exceed it, and dropped plus surviving epochs partition the input.  Under the
lenient policy only epochs globally marked bad are dropped. -/
theorem claim_C3_autoreject_policies (thr : ℚ)
    (epochs : List (List (List ℚ))) (labels : List (List Bool))
    (badEpochs : List Bool) :
    (∀ row, strictDrop thr row = true ↔
      thr < (row.count true : ℚ) / row.length) ∧
    (∀ row, strictDrop strictDefaultThreshold row = true ↔
      (15 : ℚ) / 100 < badFraction row) ∧
    applyStrict thr epochs labels
      = ((epochs.zip labels).filter
          (fun q => ! strictDrop thr q.2)).map Prod.fst ∧
    (applyStrict thr epochs labels).length
        + (epochs.zip labels).countP (fun q => strictDrop thr q.2)
      = min epochs.length labels.length ∧
    applyLenient epochs badEpochs
      = ((epochs.zip badEpochs).filter (fun q => ! q.2)).map Prod.fst ∧
    (applyLenient epochs badEpochs).length
        + (epochs.zip badEpochs).countP (fun q => q.2)
      = min epochs.length badEpochs.length := by
  refine ⟨?_, ?_, ?_, ?_, ?_, ?_⟩
  · intro row
    rw [strictDrop, decide_eq_true_iff, badFraction]
  · intro row
    rw [strictDrop, decide_eq_true_iff, strictDefaultThreshold]
  · exact dropFlagged_eq_filter _ _ _
  · exact dropFlagged_length _ _ _
  · exact dropFlagged_eq_filter _ _ _
  · exact dropFlagged_length _ _ _

/-! ### Stage 6: re-referencing -/

/-- Across-channel mean at sample index `t`; `data` is the list of channel
rows. -/
def channelMean (data : List (List ℚ)) (t : Nat) : ℚ :=
  (data.map (fun row => row.getD t 0)).sum / data.length

/-- Modelled from the spec: `set_eeg_reference` with `ref_channels` set to
average (implemented in mne, not under src/): recompute every channel signal
as its deviation from the across-channel mean at each sample. -/
def averageReference (data : List (List ℚ)) : List (List ℚ) :=
  data.map (fun row =>
    (List.range row.length).map (fun t => row.getD t 0 - channelMean data t))

theorem range_map_getD (l : List ℚ) :
    (List.range l.length).map (fun t => l.getD t 0) = l := by
  apply List.ext_getElem
  · simp
  · intro i h1 h2
    simp only [List.getElem_map, List.getElem_range]
    exact List.getD_eq_getElem l 0 h2

theorem sum_getD_sub (data : List (List ℚ)) (t : Nat) (c : ℚ) :
    (data.map (fun row => row.getD t 0 - c)).sum
      = (data.map (fun row => row.getD t 0)).sum - data.length * c := by
  induction data with
  | nil => simp
  | cons r rs ih =>
      simp only [List.map_cons, List.sum_cons, ih, List.length_cons]
      push_cast
      ring

theorem channelMean_averageReference (data : List (List ℚ)) (n t : Nat)
    (h : ∀ row ∈ data, row.length = n) (ht : t < n) :
    channelMean (averageReference data) t = 0 := by
  have hmap : (averageReference data).map (fun row => row.getD t 0)
      = data.map (fun row => row.getD t 0 - channelMean data t) := by
    rw [averageReference, List.map_map]
    apply List.map_congr_left
    intro r hr
    simp only [Function.comp_apply]
    have htr : t < r.length := by rw [h r hr]; exact ht
    rw [List.getD_eq_getElem _ _ (by simpa using htr)]
    simp
  rw [channelMean, hmap, sum_getD_sub, averageReference, List.length_map]
  rcases Nat.eq_zero_or_pos data.length with hm | hm
  · have : data = [] := List.length_eq_zero.mp hm
    subst this
    simp
  · have hm' : ((data.length : ℚ)) ≠ 0 := by
      exact_mod_cast Nat.pos_iff_ne_zero.mp hm
    rw [channelMean]
    field_simp

theorem averageReference_of_mean_zero (A : List (List ℚ)) (n : Nat)
    (hlen : ∀ row ∈ A, row.length = n)
    (hzero : ∀ t, t < n → channelMean A t = 0) :
    averageReference A = A := by
  rw [averageReference]
  apply List.ext_getElem
  · simp
  · intro c h1 h2
    rw [List.getElem_map]
    have hn : (A[c]).length = n := hlen _ (List.getElem_mem h2)
    have hcongr : (List.range A[c].length).map
          (fun t => (A[c]).getD t 0 - channelMean A t)
        = (List.range A[c].length).map (fun t => (A[c]).getD t 0) := by
      apply List.map_congr_left
      intro u hu
      rw [hzero u (by rw [← hn]; exact List.mem_range.mp hu), sub_zero]
    rw [hcongr, range_map_getD]

/-- Counterexample to C4 as stated: on a concrete 2-channel, 4-sample signal
with known values, applying re-referencing a second time returns exactly the
result of the first application, so the second application does not change
the result. -/
theorem claim_C4_counterexample :
    averageReference (averageReference [[1, 2, 3, 4], [3, 6, 1, 0]])
      = averageReference [[1, 2, 3, 4], [3, 6, 1, 0]] := by
  apply averageReference_of_mean_zero _ 4
  · intro row hr
    rw [averageReference] at hr
    simp only [List.mem_map] at hr
    obtain ⟨r, hrmem, rfl⟩ := hr
    fin_cases hrmem <;> rfl
  · intro t ht
    exact channelMean_averageReference _ 4 t
      (by intro row hr; fin_cases hr <;> rfl) ht

/-- C4 (amended): a single application of re-referencing transforms every
channel entry into its deviation from the across-channel mean at that
sample (the subtract-channel-wise-mean transform exactly), and — contrary
to the claim as written — applying re-referencing a second time to the
already-referenced signal leaves the result unchanged: the transform is
idempotent. -/
theorem claim_C4_average_reference (data : List (List ℚ)) (n : Nat)
    (h : ∀ row ∈ data, row.length = n) :
    (∀ c, c < data.length → ∀ t, t < n →
      ((averageReference data).getD c []).getD t 0
        = (data.getD c []).getD t 0 - channelMean data t) ∧
    averageReference (averageReference data) = averageReference data := by
  constructor
  · intro c hc t ht
    have hc' : c < (averageReference data).length := by
      simpa [averageReference] using hc
    rw [List.getD_eq_getElem _ _ hc', List.getD_eq_getElem _ _ hc]
    simp only [averageReference, List.getElem_map]
    have htr : t < (data[c]).length := by
      rw [h _ (List.getElem_mem hc)]; exact ht
    rw [List.getD_eq_getElem _ _ (by simpa using htr)]
    simp only [List.getElem_map, List.getElem_range]
  · apply averageReference_of_mean_zero _ n
    · intro row hr
      rw [averageReference] at hr
      simp only [List.mem_map] at hr
      obtain ⟨r, hrmem, rfl⟩ := hr
      simp [h r hrmem]
    · intro t ht
      exact channelMean_averageReference data n t h ht

/-- Witness for C4 (amended) at the concrete 2-channel, 4-sample signal. -/
theorem claim_C4_average_reference_witness :
    ((averageReference [[1, 2, 3, 4], [3, 6, 1, 0]]).getD 0 []).getD 0 0
        = 1 - channelMean [[1, 2, 3, 4], [3, 6, 1, 0]] 0 ∧
    averageReference (averageReference [[1, 2, 3, 4], [3, 6, 1, 0]])
        = averageReference [[1, 2, 3, 4], [3, 6, 1, 0]] := by
  have h := claim_C4_average_reference [[1, 2, 3, 4], [3, 6, 1, 0]] 4
    (by intro row hr; fin_cases hr <;> rfl)
  refine ⟨?_, h.2⟩
  have h0 := h.1 0 (by decide) 0 (by decide)
  simpa using h0

/-! ### Notebook cell order and the bad-channel flags (C5) -/

/-- The processing operations of the notebook, one per code cell that acts
on the signal, in the order the notebook runs them. -/
inductive StageOp where
  | loadRaw
  | bandpassFilter
  | createEpochs
  | prelimReject
  | runICA
  | icaApply
  | autoreject
  | ransacDetect
  | markRansacBads
  | interpolateBadChannels
  | averageRef
deriving DecidableEq

/-- The notebook cell order: RANSAC marks the bad channels, they are
interpolated (`interpolate_bads` with `reset_bads` true), and only then is
the average reference set. -/
def notebookOrder : List StageOp :=
  [StageOp.loadRaw, StageOp.bandpassFilter, StageOp.createEpochs,
   StageOp.prelimReject, StageOp.runICA, StageOp.icaApply,
   StageOp.autoreject, StageOp.ransacDetect, StageOp.markRansacBads,
   StageOp.interpolateBadChannels, StageOp.averageRef]

/-- Effect of one notebook operation on the list of channels currently
flagged bad: the cell `epochs_ransac.info` bads assignment sets it to the
RANSAC result, and `interpolate_bads(reset_bads=True)` interpolates the
flagged channels and clears the flags; no other operation touches the
flags. -/
def stepBads (ransacBads : List String) (bads : List String) :
    StageOp → List String
  | StageOp.markRansacBads => ransacBads
  | StageOp.interpolateBadChannels => []
  | _ => bads

/-- Bad-channel flags after running `ops` from the flags `init`. -/
def badsAfter (ransacBads init : List String) (ops : List StageOp) :
    List String :=
  ops.foldl (stepBads ransacBads) init

/-- C5: in the notebook run order, interpolation executes strictly before
re-referencing, and whatever channels RANSAC flagged, the bad-channel list
is empty by the time the average-reference cell executes: the average
reference is never computed while a flagged channel remains
uninterpolated. -/
theorem claim_C5_reref_after_interpolation (ransacBads init : List String) :
    notebookOrder.indexOf StageOp.interpolateBadChannels
        < notebookOrder.indexOf StageOp.averageRef ∧
    badsAfter ransacBads init
        (notebookOrder.takeWhile (fun op => op != StageOp.averageRef)) = [] := by
  exact ⟨by decide, rfl⟩

/-! ### Stage ownership of EpochSets (C6) -/

/-- An MNE Epochs object as the notebook uses it: the epoch data, the info
description field, the file identifier, and the bad-channel list. -/
structure EpochSet where
  data : List (List (List ℚ))
  description : String
  fid : String
  bads : List String
deriving DecidableEq

/-- The notebook bindings holding each stage's output EpochSet. -/
structure NotebookBindings where
  epochsFaster : EpochSet
  epochsAutoreject : EpochSet
  epochsRansac : EpochSet
deriving DecidableEq

/-- Stage 3 as the notebook runs it:
`ica.apply(epochs_faster.load_data())` reconstructs the signal in place on
the `epochs_faster` object, and the next line overwrites the description
field of that same object with the excluded-component count.  `recon` is
the external ICA reconstruction, `k` the number of excluded components. -/
def icaStage (recon : List (List (List ℚ)) → List (List (List ℚ)))
    (k : Nat) (st : NotebookBindings) : NotebookBindings :=
  { st with epochsFaster :=
      { st.epochsFaster with
          data := recon st.epochsFaster.data,
          description := "n_components: " ++ toString k } }

/-- Drop the epochs at the reported indices from a copy of the epoch set
(`epochs_faster.copy().drop(reject_log.report, reason="AUTOREJECT")`). -/
def dropEpochsAt (es : EpochSet) (report : List Nat) : EpochSet :=
  { es with data :=
      (es.data.enum.filter (fun p => ! report.contains p.1)).map Prod.snd }

/-- Stage 4 as the notebook runs it: the result of dropping from a copy of
`epochs_faster` is bound to the new name `epochs_autoreject`. -/
def autorejectStage (report : List Nat) (st : NotebookBindings) :
    NotebookBindings :=
  { st with epochsAutoreject := dropEpochsAt st.epochsFaster report }

/-- Stage 5 as the notebook runs it: `epochs_ransac =
epochs_autoreject.copy()`, the RANSAC bad channels are recorded, the
description is extended, and the bad channels are interpolated with
`reset_bads=True`.  `interp` is the external spline interpolation. -/
def ransacStage (badChs : List String)
    (interp : List (List (List ℚ)) → List (List (List ℚ)))
    (st : NotebookBindings) : NotebookBindings :=
  { st with epochsRansac :=
      { data := interp st.epochsAutoreject.data,
        description := st.epochsAutoreject.description ++ ", interpolated: "
          ++ String.intercalate ", " badChs,
        fid := st.epochsAutoreject.fid,
        bads := [] } }

/-- A concrete EpochSet and binding state for the counterexample. -/
def sampleEpochSet : EpochSet :=
  { data := [[[1]]], description := "", fid := "sub01", bads := [] }

def sampleBindings : NotebookBindings :=
  { epochsFaster := sampleEpochSet, epochsAutoreject := sampleEpochSet,
    epochsRansac := sampleEpochSet }

/-- Counterexample to C6 as stated: running Stage 3 on a concrete state
changes the EpochSet bound to `epochs_faster` — Stage 2's output — because
`ica.apply` and the description assignment act on that object in place; so
after automatic flagging plus apply, Stage 2's output is not left exactly
as it was. -/
theorem claim_C6_counterexample :
    (icaStage id 2 sampleBindings).epochsFaster
      ≠ sampleBindings.epochsFaster := by
  intro hcontra
  have h2 := congrArg (fun es => es.description.length) hcontra
  simp only [icaStage, sampleBindings, sampleEpochSet] at h2
  rw [String.length_append] at h2
  have hl : ("n_components: ").length = 14 := rfl
  have he : ("" : String).length = 0 := rfl
  omega

/-- C6 (amended): Stages 4 and 5 each produce their output as a new
EpochSet bound to a new name and leave every previously bound EpochSet
unchanged; Stage 3, however, mutates Stage 2's EpochSet in place — after it
runs, the object bound to `epochs_faster` carries the overwritten
description (and the reconstructed data), while the other bindings are
untouched. -/
theorem claim_C6_stage_isolation (report : List Nat) (badChs : List String)
    (recon interp : List (List (List ℚ)) → List (List (List ℚ)))
    (k : Nat) (st : NotebookBindings) :
    (autorejectStage report st).epochsFaster = st.epochsFaster ∧
    (autorejectStage report st).epochsRansac = st.epochsRansac ∧
    (ransacStage badChs interp st).epochsFaster = st.epochsFaster ∧
    (ransacStage badChs interp st).epochsAutoreject = st.epochsAutoreject ∧
    (icaStage recon k st).epochsFaster.description
        = "n_components: " ++ toString k ∧
    (icaStage recon k st).epochsFaster.data = recon st.epochsFaster.data ∧
    (icaStage recon k st).epochsAutoreject = st.epochsAutoreject ∧
    (icaStage recon k st).epochsRansac = st.epochsRansac :=
  ⟨rfl, rfl, rfl, rfl, rfl, rfl, rfl, rfl⟩

/-! ### Quality-annotation audit trail (C7) -/

/-- The accumulated audit record of a pipeline run: the drop log (one entry
per rejected epoch, with a reason tag, as MNE accumulates for `drop`) and
the info description string the notebook writes to. -/
structure Trail where
  dropLog : List (Nat × String)
  description : String
deriving DecidableEq

/-- The trail of a freshly created epoch set (empty drop log, empty
description). -/
def initialTrail : Trail := { dropLog := [], description := "" }

/-- Modelled from the spec: Stage 2 (`prepare_epochs_for_ica`, in
meeg_tools, not under src/) marks its rejected epochs; the rejections are
recorded in the drop log with the FASTER reason tag. -/
def prelimTrail (rejected : List Nat) (tr : Trail) : Trail :=
  { tr with dropLog :=
      tr.dropLog ++ rejected.map (fun i => (i, "FASTER")) }

/-- Stage 3 notebook cell: the description field is assigned the excluded
component count (its first write in the run). -/
def icaTrail (k : Nat) (tr : Trail) : Trail :=
  { tr with description := "n_components: " ++ toString k }

/-- Stage 4 notebook cell: `drop(reject_log.report, reason="AUTOREJECT")`
adds its rejections to the drop log. -/
def autorejectTrail (rejected : List Nat) (tr : Trail) : Trail :=
  { tr with dropLog :=
      tr.dropLog ++ rejected.map (fun i => (i, "AUTOREJECT")) }

/-- Stage 5 notebook cell: the interpolated channel names are concatenated
onto the existing description. -/
def ransacTrail (badChs : List String) (tr : Trail) : Trail :=
  { tr with description :=
      tr.description ++ ", interpolated: " ++ String.intercalate ", " badChs }

/-- The trail accumulated by a full run: Stage 2 rejections, the ICA
component count, Stage 4 rejections, the interpolated channels. -/
def pipelineTrail (r1 : List Nat) (k : Nat) (r2 : List Nat)
    (badChs : List String) : Trail :=
  ransacTrail badChs (autorejectTrail r2 (icaTrail k (prelimTrail r1 initialTrail)))

/-- C7: the audit trail is append-only across the stages — each stage only
extends the drop log (never removing or reordering recorded entries) and,
once the component count has been written to the (previously empty)
description, later stages only append to it; in the full run every
rejection record, the component count, and the interpolated-channel entry
all survive into the final trail. -/
theorem claim_C7_audit_append_only (tr : Trail) (r1 r2 : List Nat) (k : Nat)
    (badChs : List String) (hdesc : tr.description = "") :
    (∃ a, (prelimTrail r1 tr).dropLog = tr.dropLog ++ a) ∧
    (icaTrail k tr).dropLog = tr.dropLog ∧
    (icaTrail k tr).description
        = tr.description ++ ("n_components: " ++ toString k) ∧
    (∃ a, (autorejectTrail r2 tr).dropLog = tr.dropLog ++ a) ∧
    (autorejectTrail r2 tr).description = tr.description ∧
    (ransacTrail badChs tr).dropLog = tr.dropLog ∧
    (∃ s, (ransacTrail badChs tr).description = tr.description ++ s) ∧
    (pipelineTrail r1 k r2 badChs).dropLog
        = r1.map (fun i => (i, "FASTER"))
          ++ r2.map (fun i => (i, "AUTOREJECT")) ∧
    (pipelineTrail r1 k r2 badChs).description
        = "n_components: " ++ toString k ++ ", interpolated: "
          ++ String.intercalate ", " badChs := by
  refine ⟨⟨_, rfl⟩, rfl, ?_, ⟨_, rfl⟩, rfl, rfl,
    ⟨", interpolated: " ++ String.intercalate ", " badChs,
      String.append_assoc _ _ _⟩, rfl, rfl⟩
  rw [hdesc]
  rfl

/-- Witness for C7: the final trail of a concrete run holds both rejection
records in order. -/
theorem claim_C7_audit_append_only_witness :
    (pipelineTrail [0] 2 [1] ["T7"]).dropLog
      = [(0, "FASTER"), (1, "AUTOREJECT")] := by
  have h := claim_C7_audit_append_only initialTrail [0] [1] 2 ["T7"] rfl
  simpa using h.2.2.2.2.2.2.2.1

/-! ### Tabular log idempotence (C8) -/

/-- One row of the preprocessing CSV log. -/
structure LogRow where
  fid : String
  totalEpochs : Nat
  rejectedEpochs : Nat
  componentsExcluded : Nat
  interpolated : String
  notes : String
deriving DecidableEq

/-- Modelled from the spec: `update_log` (imported from
meeg_tools.utils.log, not under src/).  Appending is idempotent per
identifier: if a row with the same identifier already exists it is updated
in place, otherwise the row is appended. -/
def updateLog (log : List LogRow) (row : LogRow) : List LogRow :=
  if log.any (fun r => r.fid == row.fid) then
    log.map (fun r => if r.fid == row.fid then row else r)
  else
    log ++ [row]

theorem updateLog_map_invariant (log : List LogRow) (row : LogRow)
    (h : log.any (fun r => r.fid == row.fid) = true) :
    (log.map (fun r => if r.fid == row.fid then row else r)).any
      (fun r => r.fid == row.fid) = true := by
  rw [List.any_eq_true] at h ⊢
  obtain ⟨r, hr, hfid⟩ := h
  refine ⟨row, ?_, by simp⟩
  rw [List.mem_map]
  exact ⟨r, hr, by simp [hfid]⟩

/-- C8: logging the same row twice yields the same log as logging it once —
a re-run for an identifier updates the existing row instead of adding a
duplicate. -/
theorem claim_C8_updateLog_idempotent (log : List LogRow) (row : LogRow) :
    updateLog (updateLog log row) row = updateLog log row := by
  by_cases h : log.any (fun r => r.fid == row.fid) = true
  · have hinner : updateLog log row
        = log.map (fun r => if r.fid == row.fid then row else r) := by
      rw [updateLog, if_pos h]
    rw [hinner, updateLog, if_pos (updateLog_map_invariant log row h),
      List.map_map]
    apply List.map_congr_left
    intro r _
    by_cases hr : r.fid = row.fid
    · simp [Function.comp_apply, hr]
    · simp [Function.comp_apply, hr]
  · have hinner : updateLog log row = log ++ [row] := by
      rw [updateLog, if_neg h]
    have hmem : ((log ++ [row]).any (fun r => r.fid == row.fid)) = true := by
      rw [List.any_eq_true]
      exact ⟨row, by simp, by simp⟩
    rw [hinner, updateLog, if_pos hmem, List.map_append]
    have hlog : log.map (fun r => if r.fid == row.fid then row else r)
        = log := by
      have h2 : ∀ r ∈ log, (if r.fid == row.fid then row else r) = r := by
        intro r hr
        rw [if_neg]
        intro hfid
        apply h
        rw [List.any_eq_true]
        exact ⟨r, hr, hfid⟩
      have h3 := List.map_congr_left h2
      simpa using h3
    rw [hlog]
    simp

/-! ### Configuration surface (C9) -/

/-- The named stage parameters the notebook reads and writes through the
settings mapping. -/
structure Settings where
  bandpassLow : ℚ
  bandpassHigh : ℚ
  epochDuration : ℚ
  icaNComponents : Nat
  ransacThreshold : ℚ
  autorejectSubsetFraction : ℚ
deriving DecidableEq

/-- The defaults the spec states (0.5 - 45 Hz bandpass, 1 s epochs, RANSAC
threshold 0.05, autoreject subset fraction 25 percent). -/
def defaultSettings : Settings :=
  { bandpassLow := 1 / 2, bandpassHigh := 45, epochDuration := 1,
    icaNComponents := 32, ransacThreshold := 5 / 100,
    autorejectSubsetFraction := 25 / 100 }

/-- The notebook bandpass cell: two plain dictionary writes, with no
check. -/
def setBandpass (s : Settings) (lo hi : ℚ) : Settings :=
  { s with bandpassLow := lo, bandpassHigh := hi }

/-- The notebook ransac cell: a plain dictionary write, with no check. -/
def setRansacThreshold (s : Settings) (v : ℚ) : Settings :=
  { s with ransacThreshold := v }

/-- An autoreject subset-fraction write, with no check. -/
def setSubsetFraction (s : Settings) (v : ℚ) : Settings :=
  { s with autorejectSubsetFraction := v }

/-- The stage computation that consumes the configured RANSAC threshold:
a channel is flagged bad when its normalized deviation from the ensemble
predictions exceeds the threshold. -/
def ransacFlagsChannel (s : Settings) (deviation : ℚ) : Bool :=
  decide (s.ransacThreshold < deviation)

/-- Counterexample to C9: a negative RANSAC threshold and a subset fraction
outside [0,1] are accepted by the configuration writes — the assignment is
total, the malformed value is stored verbatim, and the stage computation
runs with it (here flagging a channel of zero deviation), so nothing
rejects the configuration at load time. -/
theorem claim_C9_counterexample :
    (setRansacThreshold defaultSettings (-1)).ransacThreshold = -1 ∧
    (setSubsetFraction defaultSettings 2).autorejectSubsetFraction = 2 ∧
    ransacFlagsChannel (setRansacThreshold defaultSettings (-1)) 0 = true := by
  refine ⟨rfl, rfl, ?_⟩
  rw [ransacFlagsChannel, decide_eq_true_iff]
  norm_num [setRansacThreshold]

/-- C9 (amended): the pipeline performs no validation at configuration-load
time — every assignment, malformed or not, succeeds, stores exactly the
assigned value, and the stage computations consume it as-is. -/
theorem claim_C9_no_config_validation (s : Settings) (lo hi v w d : ℚ) :
    (setBandpass s lo hi).bandpassLow = lo ∧
    (setBandpass s lo hi).bandpassHigh = hi ∧
    (setRansacThreshold s v).ransacThreshold = v ∧
    (setSubsetFraction s w).autorejectSubsetFraction = w ∧
    ransacFlagsChannel (setRansacThreshold s v) d = decide (v < d) :=
  ⟨rfl, rfl, rfl, rfl, rfl⟩

/-! ### 1/f power normalization (C10) -/

/-- A time-frequency power object: `data` indexed by epoch-or-channel then
frequency then time, and the frequency axis `freqs`. -/
structure TFRPower where
  data : List (List (List ℚ))
  freqs : List ℚ
deriving DecidableEq

/-- The notebook normalization loop (cell `power_f_corrected`): for every
`e` in range of the first axis and `f` in range of the second,
`power_f_corrected[e][f] = power.data[e][f] / (1 / power.freqs[f])`. -/
def powerFCorrected (data : List (List (List ℚ))) (freqs : List ℚ) :
    List (List (List ℚ)) :=
  data.map (fun ePlane =>
    (List.range ePlane.length).map (fun f =>
      (ePlane.getD f []).map (fun x => x / (1 / freqs.getD f 0))))

/-- The final assignment `power.data = power_f_corrected`: the data array
is replaced, the frequency axis is untouched. -/
def normalizePower (p : TFRPower) : TFRPower :=
  { p with data := powerFCorrected p.data p.freqs }

/-- C10: the 1/f normalization replaces the power array by one of identical
shape (same number of planes, same number of frequency rows per plane), the
frequency axis is unchanged, and for every plane index `e` and frequency
index `f` with `freqs[f]` nonzero the corrected row is the original row
multiplied exactly by `freqs[f]`. -/
theorem claim_C10_power_normalization (p : TFRPower) :
    (normalizePower p).freqs = p.freqs ∧
    (normalizePower p).data.length = p.data.length ∧
    (∀ e, e < p.data.length →
      ((normalizePower p).data.getD e []).length
        = (p.data.getD e []).length) ∧
    (∀ e, e < p.data.length → ∀ f, f < (p.data.getD e []).length →
      p.freqs.getD f 0 ≠ 0 →
      ((normalizePower p).data.getD e []).getD f []
        = ((p.data.getD e []).getD f []).map
            (fun x => x * p.freqs.getD f 0)) := by
  refine ⟨rfl, by simp [normalizePower, powerFCorrected], ?_, ?_⟩
  · intro e he
    have he' : e < (normalizePower p).data.length := by
      simpa [normalizePower, powerFCorrected] using he
    rw [List.getD_eq_getElem _ _ he', List.getD_eq_getElem _ _ he]
    simp [normalizePower, powerFCorrected]
  · intro e he f hf hfreq
    have he' : e < (normalizePower p).data.length := by
      simpa [normalizePower, powerFCorrected] using he
    rw [List.getD_eq_getElem _ _ he', List.getD_eq_getElem _ _ he]
    simp only [normalizePower, powerFCorrected, List.getElem_map]
    rw [List.getD_eq_getElem _ _ he] at hf
    have hf' : f < ((List.range (p.data[e]).length).map (fun f =>
        ((p.data[e]).getD f []).map
          (fun x => x / (1 / p.freqs.getD f 0)))).length := by
      simpa using hf
    rw [List.getD_eq_getElem _ _ hf']
    simp only [List.getElem_map, List.getElem_range]
    apply List.map_congr_left
    intro x _
    rw [one_div, div_eq_mul_inv, inv_inv]

/-- Witness for C10 at a concrete one-plane power array with frequency
axis [4]. -/
theorem claim_C10_power_normalization_witness :
    ((normalizePower { data := [[[6, 8]]], freqs := [4] }).data.getD 0
        []).getD 0 []
      = [24, 32] := by
  have h := (claim_C10_power_normalization
    { data := [[[6, 8]]], freqs := [4] }).2.2.2 0 (by decide) 0 (by decide)
    (by simp)
  rw [h]
  norm_num

end EEGPipeline
